import Mathlib

/-!
Shallow embedding of the `BikeData` aggregation pipeline from
`seattle_bike_data/bike_counts.py`.

The pipeline is, in source order:
  `_data_from_server` (normalize raw records into an hourly table)
  → `_get_daily_totals` (group by `(year, dayofyear)` and sum counts,
    merge calendar metadata from the hour-0 hourly row)
  → `_fix_days_with_broken_counter` (only for the `spokane street bridge`
    location: replace zero totals with the integer median of the
    nearest-matching-weekday totals of every previous year)
  → `_group_by_weekday` / `_group_by_month` / `_make_rolling_yearly`.

Pandas frames are modelled as lists of structure rows; machine floats of
pandas only ever hold exact integer or small dyadic rational values here,
so they are modelled as `ℚ`; `NaN` cells produced by a failed left merge
or by `std()` of a one-element group are modelled as `Option`; Python
exceptions (`ValueError` from `pd.to_datetime`, `astype(int)`,
`pd.concat([])` and `int(NaN)`) are modelled by `Except PipeError`.
-/

/-- The `ValueError`-style failures the pipeline can raise.
`malformedTimestamp` is `pd.to_datetime` failing on an unparseable string
(the spec's `MalformedInputError`); `nonNumericValue` is `astype(int)`
failing on a non-numeric cell (also a `MalformedInputError` in the spec's
taxonomy); `noObjectsToConcatenate` is `pd.concat([])` in
`get_all_previous_matching_days` when no previous year exists;
`nanToInteger` is `int(NaN)` when the candidate pool is empty. -/
inductive PipeError where
  | malformedTimestamp (txt : String)
  | nonNumericValue (txt : String)
  | noObjectsToConcatenate
  | nanToInteger
deriving DecidableEq

/-- Whether an error is one of the two malformed-raw-input failures that
the spec groups under the name `MalformedInputError`. -/
def PipeError.isMalformedInput : PipeError → Prop
  | .malformedTimestamp _ => True
  | .nonNumericValue _ => True
  | .noObjectsToConcatenate => False
  | .nanToInteger => False

/-- A calendar datetime at hourly granularity, the value `pd.to_datetime`
produces for one raw record (proleptic Gregorian calendar). -/
structure Stamp where
  y : Nat
  m : Nat
  d : Nat
  h : Nat
deriving DecidableEq

/-- Gregorian leap-year rule, as used by `pandas.Timestamp.dayofyear`. -/
def isLeapYear (y : Nat) : Bool :=
  (y % 4 == 0 && y % 100 != 0) || y % 400 == 0

/-- Length of month `m` (1-12). -/
def monthLength (leap : Bool) (m : Nat) : Nat :=
  match m with
  | 1 => 31
  | 2 => if leap then 29 else 28
  | 3 => 31
  | 4 => 30
  | 5 => 31
  | 6 => 30
  | 7 => 31
  | 8 => 31
  | 9 => 30
  | 10 => 31
  | 11 => 30
  | 12 => 31
  | _ => 0

/-- Days in year `y` strictly before the first of month `m`. -/
def daysBeforeMonth (leap : Bool) (m : Nat) : Nat :=
  ((List.range m).map (monthLength leap)).sum

/-- `pandas.Timestamp.dayofyear`: 1-based ordinal day of the year. -/
def dayOfYearOf (s : Stamp) : Nat :=
  daysBeforeMonth (isLeapYear s.y) s.m + s.d

/-- Days strictly before January 1 of year `y` in the proleptic Gregorian
calendar (year 1, month 1, day 1 has zero days before it). -/
def daysBeforeYear (y : Nat) : Nat :=
  365 * (y - 1) + (y - 1) / 4 - (y - 1) / 100 + (y - 1) / 400

/-- Rata-die day number of a stamp (0001-01-01 is day 1). -/
def rataDie (s : Stamp) : Nat :=
  daysBeforeYear s.y + daysBeforeMonth (isLeapYear s.y) s.m + s.d

/-- `pandas.Timestamp.dayofweek`: 0 = Monday .. 6 = Sunday.
0001-01-01 (rata die 1) is a Monday. -/
def weekdayOf (s : Stamp) : Nat :=
  (rataDie s + 6) % 7

/-- `pandas.Timestamp.day_name()` for a Monday-0 weekday index. -/
def dayNameOf (w : Nat) : String :=
  match w with
  | 0 => "Monday"
  | 1 => "Tuesday"
  | 2 => "Wednesday"
  | 3 => "Thursday"
  | 4 => "Friday"
  | 5 => "Saturday"
  | 6 => "Sunday"
  | _ => ""

/-- Lexicographic comparison of stamps, the order `sort_values(by='date')`
uses. -/
def stampLe (a b : Stamp) : Bool :=
  decide (a.y < b.y) ||
    (a.y == b.y && (decide (a.m < b.m) ||
      (a.m == b.m && (decide (a.d < b.d) ||
        (a.d == b.d && decide (a.h ≤ b.h))))))

/-- The raw timestamp cell of one record as delivered by the Socrata API:
either something `pd.to_datetime` can parse, or not. -/
inductive RawDate where
  | parseable (s : Stamp)
  | unparseable (txt : String)
deriving DecidableEq

/-- A raw count cell: a number, a missing value (`NaN`), or a non-numeric
string. -/
inductive RawValue where
  | num (n : Int)
  | missing
  | text (txt : String)
deriving DecidableEq

/-- One raw record after the `rename` step: the location's count column is
already the designated `total`; `others` are the remaining count columns. -/
structure RawRecord where
  date : RawDate
  total : RawValue
  others : List RawValue
deriving DecidableEq

/-- `.fillna(0)` on a count cell. -/
def fillValue (v : RawValue) : RawValue :=
  match v with
  | .missing => .num 0
  | v => v

/-- `.fillna(0)` on a whole record. -/
def fillRecord (r : RawRecord) : RawRecord :=
  { r with total := fillValue r.total, others := r.others.map fillValue }

/-- A record whose `date` column has been parsed. -/
structure DatedRecord where
  date : Stamp
  total : RawValue
  others : List RawValue
deriving DecidableEq

/-- `pd.to_datetime` on one record: fails on an unparseable timestamp. -/
def parseRecordDate (r : RawRecord) : Except PipeError DatedRecord :=
  match r.date with
  | .parseable s => .ok ⟨s, r.total, r.others⟩
  | .unparseable t => .error (.malformedTimestamp t)

/-- A record whose count columns have been cast to integers. -/
structure CastRecord where
  date : Stamp
  total : Int
  others : List Int
deriving DecidableEq

/-- `astype(int)` on one cell: fails on a non-numeric string. -/
def castValue (v : RawValue) : Except PipeError Int :=
  match v with
  | .num n => .ok n
  | .missing => .error (.nonNumericValue "NaN")
  | .text t => .error (.nonNumericValue t)

/-- `astype(int)` on all count columns of one record. -/
def castRecord (r : DatedRecord) : Except PipeError CastRecord := do
  let t ← castValue r.total
  let os ← r.others.mapM castValue
  pure ⟨r.date, t, os⟩

/-- One row of the hourly table with the derived calendar columns of
`_data_from_server`. -/
structure HourlyRow where
  year : Nat
  dayofyear : Nat
  hour : Nat
  date : Stamp
  total : Int
  others : List Int
  weekday : Nat
  month : Nat
  day : Nat
  day_name : String
  dayofyear_float : ℚ
deriving DecidableEq

/-- The column-derivation block of `_data_from_server`: year, weekday,
hour, month, day, day_name, dayofyear and
`dayofyear_float = dayofyear + hour/24`. -/
def deriveCalendar (r : CastRecord) : HourlyRow :=
  { year := r.date.y
    dayofyear := dayOfYearOf r.date
    hour := r.date.h
    date := r.date
    total := r.total
    others := r.others
    weekday := weekdayOf r.date
    month := r.date.m
    day := r.date.d
    day_name := dayNameOf (weekdayOf r.date)
    dayofyear_float := (dayOfYearOf r.date : ℚ) + (r.date.h : ℚ) / 24 }

/-- Insert into a list sorted by `le` (helper for `sortLe`). -/
def insertLe {α : Type} (le : α → α → Bool) (a : α) : List α → List α
  | [] => [a]
  | b :: l => if le a b then a :: b :: l else b :: insertLe le a l

/-- Insertion sort by a boolean comparison; models pandas sorting
(`sort_values`, sorted `groupby` keys, `median`'s internal sort). -/
def sortLe {α : Type} (le : α → α → Bool) : List α → List α
  | [] => []
  | a :: l => insertLe le a (sortLe le l)

/-- Single pass of `drop_duplicates()` with the set of already-seen
rows. -/
def dropDuplicatesAux {α : Type} [DecidableEq α] (seen : List α) : List α → List α
  | [] => []
  | x :: xs =>
    if x ∈ seen then dropDuplicatesAux seen xs
    else x :: dropDuplicatesAux (x :: seen) xs

/-- `drop_duplicates()` (also `Series.unique()`): keep the first
occurrence of each element. -/
def dropDuplicates {α : Type} [DecidableEq α] (l : List α) : List α :=
  dropDuplicatesAux [] l

/-- `_data_from_server` after the fetch: rename (already applied in
`RawRecord`), `fillna(0)`, `to_datetime`, `astype(int)`, derive calendar
columns, sort by date, drop duplicate rows. -/
def dataFromServer (records : List RawRecord) : Except PipeError (List HourlyRow) := do
  let dated ← (records.map fillRecord).mapM parseRecordDate
  let casted ← dated.mapM castRecord
  pure (dropDuplicates
    (sortLe (fun a b => stampLe a.date b.date) (casted.map deriveCalendar)))

/-- One row of the daily table built by `_get_daily_totals`. The index is
`(year, dayofyear)` (the appended `hour` level is the constant 0); the
calendar-metadata columns come from a *left* merge against the hourly
rows with `hour = 0`, so they are `NaN` (`none`) for a day that has no
hour-0 reading. -/
structure DailyRow where
  year : Nat
  dayofyear : Nat
  total : Int
  others : List Int
  weekday : Option Nat
  day_name : Option String
  day : Option Nat
  date : Option Stamp
  month : Option Nat
  dayofyear_float : Option ℚ
deriving DecidableEq

/-- Pointwise sum of two count vectors (pandas frames are rectangular, so
in the pipeline both vectors always have the same length). -/
def addVec : List Int → List Int → List Int
  | [], ys => ys
  | xs, [] => xs
  | x :: xs, y :: ys => (x + y) :: addVec xs ys

/-- Sum of a list of count vectors (the `others` columns of a group). -/
def vecSum (ls : List (List Int)) : List Int :=
  ls.foldl addVec []

/-- Lexicographic order on pairs, the order of sorted `groupby` keys. -/
def pairLe (a b : Nat × Nat) : Bool :=
  decide (a.1 < b.1) || (a.1 == b.1 && decide (a.2 ≤ b.2))

/-- The sorted distinct `(year, dayofyear)` keys of the hourly table:
`groupby(['year', 'dayofyear'])` group keys. -/
def dailyKeys (hourly : List HourlyRow) : List (Nat × Nat) :=
  sortLe pairLe (dropDuplicates (hourly.map (fun h => (h.year, h.dayofyear))))

/-- The hourly rows of one `(year, dayofyear)` group. -/
def groupRows (hourly : List HourlyRow) (k : Nat × Nat) : List HourlyRow :=
  hourly.filter (fun h => decide ((h.year, h.dayofyear) = k))

/-- The hourly rows whose full index is `(year, dayofyear, 0)` — the rows
a daily row (with its `hour` level set to 0) matches in the metadata
merge. -/
def hourZeroRows (hourly : List HourlyRow) (k : Nat × Nat) : List HourlyRow :=
  hourly.filter (fun h => decide ((h.year, h.dayofyear, h.hour) = (k.1, k.2, 0)))

/-- The left merge of one daily group row against the hourly metadata
columns: one output row per matching hour-0 hourly row, or a single row
with `NaN` metadata when no hour-0 row exists (`how='left'`). -/
def mergeMeta (hourly : List HourlyRow) (k : Nat × Nat) (tot : Int)
    (oth : List Int) : List DailyRow :=
  match hourZeroRows hourly k with
  | [] => [{ year := k.1, dayofyear := k.2, total := tot, others := oth,
             weekday := none, day_name := none, day := none, date := none,
             month := none, dayofyear_float := none }]
  | ms => ms.map (fun h =>
      { year := k.1, dayofyear := k.2, total := tot, others := oth,
        weekday := some h.weekday, day_name := some h.day_name,
        day := some h.day, date := some h.date, month := some h.month,
        dayofyear_float := some h.dayofyear_float })

/-- `_get_daily_totals` before the location-specific repair: group the
hourly table by `(year, dayofyear)`, sum every count column, and left
merge the calendar metadata of the hour-0 row of each day. -/
def getDailyTotalsRaw (hourly : List HourlyRow) : List DailyRow :=
  (dailyKeys hourly).flatMap (fun k =>
    mergeMeta hourly k ((groupRows hourly k).map (fun h => h.total)).sum
      (vecSum ((groupRows hourly k).map (fun h => h.others))))

/-- `abs(dayofyear - day_of_year)` as a natural number. -/
def distTo (doy target : Nat) : Nat :=
  ((doy : Int) - (target : Int)).natAbs

/-- `find_nearest_matching_day`: the rows of `df` in year `year` whose
`weekday` equals `wd` and whose `dayofyear` is closest to `day_of_year`
(all tied rows are kept). A `NaN` weekday (`wd = none`) matches nothing,
since `NaN == NaN` is false in pandas; an empty candidate set yields an
empty result (`abs(...) == NaN.min()` is everywhere false). -/
def findNearestMatchingDay (df : List DailyRow) (day_of_year : Nat)
    (wd : Option Nat) (year : Nat) : List DailyRow :=
  let candidate_days :=
    df.filter (fun r => (wd.isSome && decide (r.weekday = wd)) && decide (r.year = year))
  match (candidate_days.map (fun r => distTo r.dayofyear day_of_year)).min? with
  | none => []
  | some m => candidate_days.filter (fun r => decide (distTo r.dayofyear day_of_year = m))

/-- `daily.reset_index().year.unique()`: the distinct years of the table
in order of first appearance. -/
def yearsOf (daily : List DailyRow) : List Nat :=
  dropDuplicates (daily.map (fun r => r.year))

/-- The candidate pool of a broken day: for every previous year present
in the table, the nearest matching weekday rows of that year. -/
def candidatePool (daily : List DailyRow) (year : Nat) (day_of_year : Nat)
    (wd : Option Nat) : List DailyRow :=
  ((yearsOf daily).filter (fun z => decide (z < year))).flatMap
    (fun z => findNearestMatchingDay daily day_of_year wd z)

/-- `get_all_previous_matching_days` followed by `pd.concat(matches)`:
with no previous year at all the concatenated list is empty and pandas
raises `ValueError: No objects to concatenate`. -/
def getAllPreviousMatchingDays (daily : List DailyRow) (year : Nat)
    (day_of_year : Nat) (wd : Option Nat) : Except PipeError (List DailyRow) :=
  if ((yearsOf daily).filter (fun z => decide (z < year))).isEmpty then
    .error .noObjectsToConcatenate
  else
    .ok (candidatePool daily year day_of_year wd)

/-- Python `int()` on an exact rational: truncation toward zero. -/
def intTruncate (q : ℚ) : Int :=
  if 0 ≤ q then ⌊q⌋ else -⌊-q⌋

/-- `Series.median()`: sort, take the middle value for odd length, the
average of the two middle values for even length. -/
def medianRat (pool : List Int) : ℚ :=
  let s := sortLe (fun a b => decide (a ≤ b)) pool
  let n := s.length
  if n % 2 = 1 then ((s.getD (n / 2) 0 : Int) : ℚ)
  else (((s.getD (n / 2 - 1) 0 : Int) : ℚ) + ((s.getD (n / 2) 0 : Int) : ℚ)) / 2

/-- `int(matches[['total']].median().values)`: `int(NaN)` raises a
`ValueError` when the pool is empty. -/
def medianInt (pool : List Int) : Except PipeError Int :=
  match pool with
  | [] => .error .nanToInteger
  | _ => .ok (intTruncate (medianRat pool))

/-- `daily_totals.at[idx, 'total'] = v` for `idx = (year, dayofyear, 0)`:
overwrite `total` of every row carrying that index label. -/
def updateTotal (k : Nat × Nat) (v : Int) (daily : List DailyRow) : List DailyRow :=
  daily.map (fun s => if (s.year, s.dayofyear) = k then { s with total := v } else s)

/-- One iteration of the repair loop of `_fix_days_with_broken_counter`
for snapshot row `r`: pool the nearest matching previous-year rows of the
*current* table, take the integer median of their totals, write it back
at `r`'s index. -/
def repairStep (cur : List DailyRow) (r : DailyRow) : Except PipeError (List DailyRow) := do
  let found ← getAllPreviousMatchingDays cur r.year r.dayofyear r.weekday
  let v ← medianInt (found.map (fun s => s.total))
  pure (updateTotal (r.year, r.dayofyear) v cur)

/-- `_fix_days_with_broken_counter`: iterate over the snapshot of rows
with `total == 0` (`days_the_thief_struck`), repairing the live table in
place. -/
def fixDaysWithBrokenCounter (daily : List DailyRow) : Except PipeError (List DailyRow) :=
  (daily.filter (fun r => decide (r.total = 0))).foldlM repairStep daily

/-- `_get_daily_totals`: aggregate, then repair broken days only for the
`spokane street bridge` location. -/
def getDailyTotals (location : String) (hourly : List HourlyRow) :
    Except PipeError (List DailyRow) :=
  let daily := getDailyTotalsRaw hourly
  if location = "spokane street bridge" then fixDaysWithBrokenCounter daily
  else pure daily

/-- The whole deterministic pipeline on already-fetched raw records:
`_data_from_server`'s transform followed by `_get_daily_totals`. -/
def fullPipeline (location : String) (records : List RawRecord) :
    Except PipeError (List DailyRow) := do
  let hourly ← dataFromServer records
  getDailyTotals location hourly

/-- One row of `grouped_by_weekday`, keyed by `(weekday, year)`.
`total_crossings_std_sq` is the *square* of the pandas `std()` column,
i.e. the sample variance with `ddof = 1` (pandas `std` is its square
root); `none` models the `NaN` that `std()` yields for a one-element
group. -/
structure WeekdayRow where
  weekday : Nat
  year : Nat
  total_crossings_mean : ℚ
  day_name : String
  total_crossings_std_sq : Option ℚ
deriving DecidableEq

/-- The sorted distinct `(weekday, year)` group keys of the daily table.
Rows whose `weekday` metadata is `NaN` are dropped, as pandas `groupby`
drops groups with a `NaN` key. -/
def weekdayKeys (daily : List DailyRow) : List (Nat × Nat) :=
  sortLe pairLe (dropDuplicates
    (daily.filterMap (fun r => r.weekday.map (fun w => (w, r.year)))))

/-- The daily rows of one `(weekday, year)` group. -/
def weekdayGroup (daily : List DailyRow) (k : Nat × Nat) : List DailyRow :=
  daily.filter (fun r => decide (r.weekday = some k.1) && decide (r.year = k.2))

/-- Sample variance with `ddof = 1` (the square of pandas `std()`);
`none` is the `NaN` of a group with fewer than two elements. -/
def sampleVar (xs : List ℚ) : Option ℚ :=
  if xs.length ≤ 1 then none
  else
    some ((xs.map (fun x => (x - xs.sum / (xs.length : ℚ)) ^ 2)).sum /
      ((xs.length : ℚ) - 1))

/-- `_group_by_weekday`: group the daily table by `(weekday, year)`, take
the mean and the standard deviation of `total`, attach
`calendar.day_name[weekday]`. -/
def groupByWeekday (daily : List DailyRow) : List WeekdayRow :=
  (weekdayKeys daily).map (fun k =>
    let g := (weekdayGroup daily k).map (fun r => (r.total : ℚ))
    { weekday := k.1, year := k.2,
      total_crossings_mean := g.sum / (g.length : ℚ),
      day_name := dayNameOf k.1,
      total_crossings_std_sq := sampleVar g })

/-- `calendar.month_name[m]` for `m` in 1-12. -/
def monthNameOf (m : Nat) : String :=
  match m with
  | 1 => "January"
  | 2 => "February"
  | 3 => "March"
  | 4 => "April"
  | 5 => "May"
  | 6 => "June"
  | 7 => "July"
  | 8 => "August"
  | 9 => "September"
  | 10 => "October"
  | 11 => "November"
  | 12 => "December"
  | _ => ""

/-- One row of `grouped_by_month`, keyed by `(month, year)`. -/
structure MonthRow where
  month : Nat
  year : Nat
  total_crossings : Int
  total_crossings_mean : ℚ
  month_name : String
deriving DecidableEq

/-- The sorted distinct `(month, year)` group keys of the daily table. -/
def monthKeys (daily : List DailyRow) : List (Nat × Nat) :=
  sortLe pairLe (dropDuplicates
    (daily.filterMap (fun r => r.month.map (fun m => (m, r.year)))))

/-- The daily rows of one `(month, year)` group. -/
def monthGroup (daily : List DailyRow) (k : Nat × Nat) : List DailyRow :=
  daily.filter (fun r => decide (r.month = some k.1) && decide (r.year = k.2))

/-- `_group_by_month`: group by `(month, year)`, take the sum and the
mean of `total`, attach `calendar.month_name[month]`. -/
def groupByMonth (daily : List DailyRow) : List MonthRow :=
  (monthKeys daily).map (fun k =>
    let g := monthGroup daily k
    { month := k.1, year := k.2,
      total_crossings := (g.map (fun r => r.total)).sum,
      total_crossings_mean := ((g.map (fun r => r.total)).sum : ℚ) / (g.length : ℚ),
      month_name := monthNameOf k.1 })

/-- The trailing-window pass of `rolling(window=w).sum()`: `seen` is the
list of values already consumed; a row yields `NaN` (`none`) until `w`
values have been seen, and afterwards the sum of the last `w` values. -/
def rollingGo (w : Nat) (seen : List Int) : List Int → List (Option Int)
  | [] => []
  | x :: xs =>
    (if (seen ++ [x]).length < w then none
     else some (((seen ++ [x]).drop ((seen ++ [x]).length - w)).sum)) ::
      rollingGo w (seen ++ [x]) xs

/-- `Series.rolling(window=w).sum()` over a column. -/
def rollingSums (w : Nat) (xs : List Int) : List (Option Int) :=
  rollingGo w [] xs

/-- `_make_rolling_yearly`: the 365-row trailing sum of `total`, merged
back (one to one on the index) with the daily rows' metadata. -/
def makeRollingYearly (daily : List DailyRow) : List (Option Int × DailyRow) :=
  (rollingSums 365 (daily.map (fun r => r.total))).zip daily

/-- A row builder for concrete daily-table instances (metadata left
`NaN` except the weekday). -/
def mkDay (y doy : Nat) (tot : Int) (wd : Option Nat) : DailyRow :=
  { year := y, dayofyear := doy, total := tot, others := [], weekday := wd,
    day_name := none, day := none, date := none, month := none,
    dayofyear_float := none }

lemma mem_dropDuplicatesAux {α : Type} [DecidableEq α] (a : α) :
    ∀ (l seen : List α), a ∈ dropDuplicatesAux seen l ↔ a ∈ l ∧ a ∉ seen := by
  intro l
  induction l with
  | nil => simp [dropDuplicatesAux]
  | cons x xs ih =>
    intro seen
    rw [dropDuplicatesAux]
    by_cases hx : x ∈ seen
    · rw [if_pos hx, ih]
      constructor
      · exact fun ⟨h1, h2⟩ => ⟨List.mem_cons_of_mem _ h1, h2⟩
      · rintro ⟨h1, h2⟩
        rcases List.mem_cons.mp h1 with rfl | h1
        · exact absurd hx h2
        · exact ⟨h1, h2⟩
    · rw [if_neg hx]
      constructor
      · intro h
        rcases List.mem_cons.mp h with rfl | h
        · exact ⟨List.mem_cons_self _ _, hx⟩
        · obtain ⟨h1, h2⟩ := (ih _).mp h
          exact ⟨List.mem_cons_of_mem _ h1,
            fun hs => h2 (List.mem_cons_of_mem _ hs)⟩
      · rintro ⟨h1, h2⟩
        rcases List.mem_cons.mp h1 with rfl | h1
        · exact List.mem_cons_self _ _
        · by_cases hax : a = x
          · exact hax ▸ List.mem_cons_self _ _
          · exact List.mem_cons_of_mem _ ((ih _).mpr
              ⟨h1, fun hs => by
                rcases List.mem_cons.mp hs with h | h
                · exact hax h
                · exact h2 h⟩)

lemma mem_dropDuplicates {α : Type} [DecidableEq α] (l : List α) (a : α) :
    a ∈ dropDuplicates l ↔ a ∈ l := by
  rw [dropDuplicates, mem_dropDuplicatesAux]
  simp

lemma nodup_dropDuplicatesAux {α : Type} [DecidableEq α] :
    ∀ (l seen : List α), (dropDuplicatesAux seen l).Nodup := by
  intro l
  induction l with
  | nil => simp [dropDuplicatesAux]
  | cons x xs ih =>
    intro seen
    rw [dropDuplicatesAux]
    by_cases hx : x ∈ seen
    · rw [if_pos hx]; exact ih seen
    · rw [if_neg hx]
      refine List.nodup_cons.mpr ⟨?_, ih _⟩
      intro hmem
      exact ((mem_dropDuplicatesAux _ _ _).mp hmem).2 (List.mem_cons_self _ _)

lemma nodup_dropDuplicates {α : Type} [DecidableEq α] (l : List α) :
    (dropDuplicates l).Nodup :=
  nodup_dropDuplicatesAux l []

lemma insertLe_perm {α : Type} (le : α → α → Bool) (a : α) (l : List α) :
    (insertLe le a l).Perm (a :: l) := by
  induction l with
  | nil => exact List.Perm.refl _
  | cons b l ih =>
    rw [insertLe]
    by_cases h : le a b
    · simp [h]
    · simp only [h, if_false]
      exact (ih.cons b).trans (List.Perm.swap a b l)

lemma sortLe_perm {α : Type} (le : α → α → Bool) (l : List α) :
    (sortLe le l).Perm l := by
  induction l with
  | nil => exact List.Perm.refl _
  | cons a l ih => exact (insertLe_perm le a (sortLe le l)).trans (ih.cons a)

lemma mem_sortLe {α : Type} (le : α → α → Bool) (l : List α) (a : α) :
    a ∈ sortLe le l ↔ a ∈ l :=
  (sortLe_perm le l).mem_iff

lemma nodup_sortLe {α : Type} (le : α → α → Bool) (l : List α) :
    (sortLe le l).Nodup ↔ l.Nodup :=
  (sortLe_perm le l).nodup_iff

lemma except_bind_ok {ε α β : Type} (x : α) (k : α → Except ε β) :
    (Except.ok x >>= k) = k x := rfl

lemma except_bind_error {ε α β : Type} (e : ε) (k : α → Except ε β) :
    ((Except.error e : Except ε α) >>= k) = .error e := rfl

lemma except_map_ok {ε α β : Type} (f : α → β) (x : α) :
    (f <$> (Except.ok x : Except ε α)) = .ok (f x) := rfl

lemma natMin?_eq_some_iff {l : List Nat} {m : Nat} :
    l.min? = some m ↔ m ∈ l ∧ ∀ b ∈ l, m ≤ b :=
  List.min?_eq_some_iff (fun a => Nat.le_refl a) (fun a b => min_choice a b)
    (fun _ _ _ => Nat.le_min)

/-- C9. The Normalizer → Aggregator → Gap Repair pipeline is a pure
function of the raw records: two runs on identical raw input produce
identical daily tables (there is no randomness and no dependence on
anything besides the input; the network fetch happens before this
transform). -/
theorem pipeline_deterministic (location : String) (r1 r2 : List RawRecord)
    (h : r1 = r2) : fullPipeline location r1 = fullPipeline location r2 := by
  rw [h]

theorem pipeline_deterministic_witness :
    fullPipeline "spokane street bridge" [] = fullPipeline "spokane street bridge" [] :=
  pipeline_deterministic "spokane street bridge" [] [] rfl

/-- C10. `_get_daily_totals` runs the broken-counter repair only when the
location is `spokane street bridge`; for every other location the daily
table is published exactly as aggregated, so a day whose `total` is 0
keeps `total = 0` there and in every rollup computed from that table. -/
theorem no_repair_for_other_locations (location : String) (hourly : List HourlyRow)
    (h : location ≠ "spokane street bridge") :
    getDailyTotals location hourly = .ok (getDailyTotalsRaw hourly) := by
  simp [getDailyTotals, h, pure, Except.pure]

theorem no_repair_for_other_locations_witness :
    getDailyTotals "fremont bridge" [] = .ok (getDailyTotalsRaw []) :=
  no_repair_for_other_locations "fremont bridge" [] (by decide)

/-- C4. A broken day in the first year of the series has an empty
candidate pool, and the code has no policy for it: the repair loop
neither raises a documented `InsufficientHistoryError` nor leaves the
day's `total` at 0 — `pd.concat([])` raises
`ValueError: No objects to concatenate`, aborting the whole repair. On a
table whose rows all lie in one year and that contains a zero-total day,
`_fix_days_with_broken_counter` fails with that error. -/
theorem gapRepair_first_year_raises_concat_error (daily : List DailyRow) (Y : Nat)
    (hY : ∀ r ∈ daily, r.year = Y) (hz : ∃ r ∈ daily, r.total = 0) :
    fixDaysWithBrokenCounter daily = .error .noObjectsToConcatenate := by
  obtain ⟨r0, hr0, hr0z⟩ := hz
  have hmem : r0 ∈ daily.filter (fun r => decide (r.total = 0)) :=
    List.mem_filter.mpr ⟨hr0, by simp [hr0z]⟩
  obtain ⟨b, bs, hbs⟩ := List.exists_cons_of_ne_nil (List.ne_nil_of_mem hmem)
  have hb : b ∈ daily.filter (fun r => decide (r.total = 0)) := by
    rw [hbs]; exact List.mem_cons_self _ _
  have hby : b.year = Y := hY b (List.mem_filter.mp hb).1
  have hyears : ((yearsOf daily).filter (fun z => decide (z < b.year))).isEmpty = true := by
    rw [List.isEmpty_iff, List.filter_eq_nil_iff]
    intro z hzin
    obtain ⟨s, hs, hsz⟩ := List.mem_map.mp ((mem_dropDuplicates _ _).mp hzin)
    have : z = Y := hsz ▸ hY s hs
    simp [this, hby]
  have hstep : repairStep daily b = .error .noObjectsToConcatenate := by
    have hget : getAllPreviousMatchingDays daily b.year b.dayofyear b.weekday =
        .error .noObjectsToConcatenate := by
      rw [getAllPreviousMatchingDays, if_pos hyears]
    simp only [repairStep]
    rw [hget, except_bind_error]
  rw [fixDaysWithBrokenCounter, hbs, List.foldlM_cons, hstep]
  rfl

theorem gapRepair_first_year_raises_concat_error_witness :
    fixDaysWithBrokenCounter [mkDay 2015 10 0 (some 0), mkDay 2015 11 5 (some 1)] =
      .error .noObjectsToConcatenate :=
  gapRepair_first_year_raises_concat_error _ 2015 (by decide) ⟨mkDay 2015 10 0 (some 0), by decide, rfl⟩

/-- C1. Each iteration of the repair loop of
`_fix_days_with_broken_counter` (the loop over the snapshot of zero-total
days, of which the whole engine is the fold) overwrites the broken day's
`total` with the integer median of the candidate pool drawn from the
current table — `Series.median` (middle value for an odd pool, average of
the two middle values for an even pool) truncated to an integer by
`int(...)` — whenever the pool has at least one member. -/
theorem gapRepair_writes_integer_median_of_pool :
    (∀ daily, fixDaysWithBrokenCounter daily =
      (daily.filter (fun r => decide (r.total = 0))).foldlM repairStep daily) ∧
    ∀ (cur : List DailyRow) (r : DailyRow),
      candidatePool cur r.year r.dayofyear r.weekday ≠ [] →
      repairStep cur r = .ok (updateTotal (r.year, r.dayofyear)
        (intTruncate (medianRat
          ((candidatePool cur r.year r.dayofyear r.weekday).map (fun s => s.total)))) cur) := by
  refine ⟨fun _ => rfl, ?_⟩
  intro cur r hpool
  have hne : (candidatePool cur r.year r.dayofyear r.weekday).map (fun s => s.total) ≠ [] := by
    simpa [List.map_eq_nil_iff] using hpool
  have hmed : medianInt ((candidatePool cur r.year r.dayofyear r.weekday).map (fun s => s.total)) =
      .ok (intTruncate (medianRat
        ((candidatePool cur r.year r.dayofyear r.weekday).map (fun s => s.total)))) := by
    obtain ⟨p, ps, hp⟩ := List.exists_cons_of_ne_nil hne
    rw [hp]
    rfl
  have hflat : ((yearsOf cur).filter (fun z => decide (z < r.year))) ≠ [] := by
    intro h
    exact hpool (by simp [candidatePool, h])
  have hyears : ¬ ((yearsOf cur).filter (fun z => decide (z < r.year))).isEmpty = true := by
    rw [List.isEmpty_iff]
    exact hflat
  have hget : getAllPreviousMatchingDays cur r.year r.dayofyear r.weekday =
      .ok (candidatePool cur r.year r.dayofyear r.weekday) := by
    rw [getAllPreviousMatchingDays, if_neg hyears]
  simp only [repairStep]
  rw [hget, except_bind_ok, hmed, except_bind_ok]
  rfl

/-- The spec's synthetic median scenario: Mondays of 2015-2017 with
totals 100, 150, 200 and a broken Monday in 2018. -/
def specMedianTable : List DailyRow :=
  [mkDay 2015 100 100 (some 0), mkDay 2016 101 150 (some 0),
   mkDay 2017 102 200 (some 0), mkDay 2018 103 0 (some 0)]

theorem gapRepair_writes_integer_median_of_pool_witness :
    repairStep specMedianTable (mkDay 2018 103 0 (some 0)) =
      .ok (updateTotal (2018, 103) 150 specMedianTable) := by
  have h := gapRepair_writes_integer_median_of_pool.2 specMedianTable
    (mkDay 2018 103 0 (some 0)) (by decide)
  exact h.trans (congrArg Except.ok (by decide))

lemma mem_findNearestMatchingDay (df : List DailyRow) (doy W z : Nat) (r : DailyRow) :
    r ∈ findNearestMatchingDay df doy (some W) z ↔
      r ∈ df ∧ r.weekday = some W ∧ r.year = z ∧
        ∀ s ∈ df, s.weekday = some W → s.year = z →
          distTo r.dayofyear doy ≤ distTo s.dayofyear doy := by
  have hc : ∀ t : DailyRow,
      t ∈ df.filter (fun x =>
        ((some W : Option Nat).isSome && decide (x.weekday = some W)) && decide (x.year = z)) ↔
      t ∈ df ∧ t.weekday = some W ∧ t.year = z := by
    intro t
    rw [List.mem_filter]
    simp [and_assoc]
  rw [findNearestMatchingDay]
  split
  next hmin =>
    rw [List.min?_eq_none_iff, List.map_eq_nil_iff] at hmin
    constructor
    · intro h
      exact absurd h (List.not_mem_nil r)
    · rintro ⟨h1, h2, h3, _⟩
      have : r ∈ ([] : List DailyRow) := hmin ▸ (hc r).mpr ⟨h1, h2, h3⟩
      exact absurd this (List.not_mem_nil r)
  next m hmin =>
    obtain ⟨hmem, hbound⟩ := natMin?_eq_some_iff.mp hmin
    rw [List.mem_filter]
    constructor
    · rintro ⟨hin, heq⟩
      obtain ⟨h1, h2, h3⟩ := (hc r).mp hin
      refine ⟨h1, h2, h3, ?_⟩
      intro s hs hsw hsz
      have hsd : distTo s.dayofyear doy ∈ ((df.filter (fun x =>
          ((some W : Option Nat).isSome && decide (x.weekday = some W)) && decide (x.year = z))).map
            (fun x => distTo x.dayofyear doy)) :=
        List.mem_map.mpr ⟨s, (hc s).mpr ⟨hs, hsw, hsz⟩, rfl⟩
      have hb := hbound _ hsd
      have heq2 : distTo r.dayofyear doy = m := of_decide_eq_true heq
      omega
    · rintro ⟨h1, h2, h3, hminimal⟩
      have hin : r ∈ df.filter (fun x =>
          ((some W : Option Nat).isSome && decide (x.weekday = some W)) && decide (x.year = z)) :=
        (hc r).mpr ⟨h1, h2, h3⟩
      refine ⟨hin, ?_⟩
      obtain ⟨s0, hs0, hs0d⟩ := List.mem_map.mp hmem
      obtain ⟨hs01, hs02, hs03⟩ := (hc s0).mp hs0
      have hle : distTo r.dayofyear doy ≤ m := hs0d ▸ hminimal s0 hs01 hs02 hs03
      have hge : m ≤ distTo r.dayofyear doy :=
        hbound _ (List.mem_map.mpr ⟨r, hin, rfl⟩)
      have heqd : distTo r.dayofyear doy = m := Nat.le_antisymm hle hge
      simp [heqd]

/-- C2. For a broken day `(year = Y, weekday = W, day_of_year = doy)`, the
candidate pool built by `get_all_previous_matching_days` contains exactly
the rows of each prior year `y < Y` present in the table whose `weekday`
is `W` and whose `day_of_year` is at minimal absolute distance from `doy`
among such rows of that year — equidistant candidates are all included. -/
theorem candidatePool_members (daily : List DailyRow) (Y doy W : Nat)
    (pool : List DailyRow)
    (hok : getAllPreviousMatchingDays daily Y doy (some W) = .ok pool) (r : DailyRow) :
    r ∈ pool ↔
      r ∈ daily ∧ r.year < Y ∧ r.weekday = some W ∧
        ∀ s ∈ daily, s.weekday = some W → s.year = r.year →
          distTo r.dayofyear doy ≤ distTo s.dayofyear doy := by
  have hpool : pool = candidatePool daily Y doy (some W) := by
    by_cases h : ((yearsOf daily).filter (fun z => decide (z < Y))).isEmpty = true
    · rw [getAllPreviousMatchingDays, if_pos h] at hok
      cases hok
    · rw [getAllPreviousMatchingDays, if_neg h] at hok
      cases hok
      rfl
  subst hpool
  rw [candidatePool, List.mem_flatMap]
  constructor
  · rintro ⟨z, hz, hr⟩
    obtain ⟨hrdf, hwd, hyz, hmin⟩ := (mem_findNearestMatchingDay daily doy W z r).mp hr
    have hzlt : z < Y := by
      have h2 := (List.mem_filter.mp hz).2
      exact of_decide_eq_true h2
    subst hyz
    exact ⟨hrdf, hzlt, hwd, hmin⟩
  · rintro ⟨hrdf, hlt, hwd, hmin⟩
    refine ⟨r.year, List.mem_filter.mpr ⟨?_, by simpa using hlt⟩, ?_⟩
    · rw [yearsOf, mem_dropDuplicates]
      exact List.mem_map.mpr ⟨r, hrdf, rfl⟩
    · exact (mem_findNearestMatchingDay daily doy W r.year r).mpr ⟨hrdf, hwd, rfl, hmin⟩

/-- The spec's tie-break scenario: prior-year candidates at `day_of_year`
100 and 104, broken day at 102. -/
def tieTable : List DailyRow :=
  [mkDay 2017 100 10 (some 0), mkDay 2017 104 30 (some 0), mkDay 2018 102 0 (some 0)]

theorem candidatePool_members_witness :
    mkDay 2017 100 10 (some 0) ∈ candidatePool tieTable 2018 102 (some 0) ∧
    mkDay 2017 104 30 (some 0) ∈ candidatePool tieTable 2018 102 (some 0) :=
  ⟨(candidatePool_members tieTable 2018 102 0 _ rfl _).mpr (by decide),
   (candidatePool_members tieTable 2018 102 0 _ rfl _).mpr (by decide)⟩

lemma repairStep_shape (cur : List DailyRow) (r : DailyRow) (cur2 : List DailyRow)
    (h : repairStep cur r = .ok cur2) :
    ∃ v, cur2 = updateTotal (r.year, r.dayofyear) v cur := by
  simp only [repairStep] at h
  cases hget : getAllPreviousMatchingDays cur r.year r.dayofyear r.weekday with
  | error e =>
    rw [hget, except_bind_error] at h
    cases h
  | ok pool =>
    rw [hget, except_bind_ok] at h
    cases hmed : medianInt (pool.map (fun s => s.total)) with
    | error e =>
      rw [hmed, except_bind_error] at h
      cases h
    | ok v =>
      rw [hmed, except_bind_ok] at h
      have h2 : Except.ok (ε := PipeError)
          (updateTotal (r.year, r.dayofyear) v cur) = .ok cur2 := h
      injection h2 with h3
      exact ⟨v, h3.symm⟩

lemma forall₂_map_right {α β : Type} {R S : α → β → Prop} (f : β → β) :
    ∀ {l1 : List α} {l2 : List β}, List.Forall₂ R l1 l2 →
      (∀ a ∈ l1, ∀ b, R a b → S a (f b)) → List.Forall₂ S l1 (l2.map f) := by
  intro l1 l2 h
  induction h with
  | nil =>
    intro _
    exact List.Forall₂.nil
  | @cons a b l1 l2 hab _ ih =>
    intro himp
    rw [List.map_cons]
    exact List.Forall₂.cons (himp a (List.mem_cons_self _ _) b hab)
      (ih (fun x hx y hr => himp x (List.mem_cons_of_mem _ hx) y hr))

/-- The frame relation of the repair: a repaired row differs from the
original at most in `total`, and rows that were not broken are untouched. -/
def FrameRel (d s : DailyRow) : Prop :=
  s = { d with total := s.total } ∧ (d.total ≠ 0 → s = d)

lemma updateTotal_preserves_frame (daily cur : List DailyRow) (b : DailyRow) (v : Int)
    (hnd : (daily.map (fun r => (r.year, r.dayofyear))).Nodup)
    (hb : b ∈ daily) (hbz : b.total = 0)
    (hinv : List.Forall₂ FrameRel daily cur) :
    List.Forall₂ FrameRel daily (updateTotal (b.year, b.dayofyear) v cur) := by
  rw [updateTotal]
  refine forall₂_map_right _ hinv ?_
  intro d hd s hds
  obtain ⟨hs1, hs2⟩ := hds
  by_cases hk : (s.year, s.dayofyear) = (b.year, b.dayofyear)
  · rw [if_pos hk]
    constructor
    · rw [hs1]
    · intro hdz
      exfalso
      have hkd : (d.year, d.dayofyear) = (b.year, b.dayofyear) := by
        rw [hs1] at hk
        exact hk
      have : d = b := List.inj_on_of_nodup_map hnd hd hb hkd
      exact hdz (this ▸ hbz)
  · rw [if_neg hk]
    exact ⟨hs1, hs2⟩

lemma repair_fold_frame (daily : List DailyRow)
    (hnd : (daily.map (fun r => (r.year, r.dayofyear))).Nodup) :
    ∀ (bs cur out : List DailyRow),
      (∀ b ∈ bs, b ∈ daily ∧ b.total = 0) →
      List.Forall₂ FrameRel daily cur →
      bs.foldlM repairStep cur = .ok out →
      List.Forall₂ FrameRel daily out := by
  intro bs
  induction bs with
  | nil =>
    intro cur out _ hinv hfold
    have h2 : Except.ok (ε := PipeError) cur = .ok out := hfold
    injection h2 with h3
    exact h3 ▸ hinv
  | cons b bs ih =>
    intro cur out hbs hinv hfold
    rw [List.foldlM_cons] at hfold
    cases hstep : repairStep cur b with
    | error e =>
      rw [hstep, except_bind_error] at hfold
      cases hfold
    | ok cur2 =>
      rw [hstep, except_bind_ok] at hfold
      obtain ⟨v, hv⟩ := repairStep_shape cur b cur2 hstep
      obtain ⟨hbd, hbz⟩ := hbs b (List.mem_cons_self _ _)
      refine ih cur2 out (fun x hx => hbs x (List.mem_cons_of_mem _ hx)) ?_ hfold
      rw [hv]
      exact updateTotal_preserves_frame daily cur b v hnd hbd hbz hinv

/-- C3. Gap Repair touches only broken days and only the `total` field:
when `_fix_days_with_broken_counter` succeeds on a table with unique
`(year, dayofyear)` keys, the output is row-for-row the input with, at
most, `total` overwritten, and every row whose `total` was not 0 is
entirely unchanged. -/
theorem gapRepair_frame_effect (daily out : List DailyRow)
    (hnd : (daily.map (fun r => (r.year, r.dayofyear))).Nodup)
    (hok : fixDaysWithBrokenCounter daily = .ok out) :
    List.Forall₂ (fun d s => s = { d with total := s.total } ∧ (d.total ≠ 0 → s = d))
      daily out := by
  rw [fixDaysWithBrokenCounter] at hok
  refine repair_fold_frame daily hnd _ daily out ?_ ?_ hok
  · intro b hb
    obtain ⟨h1, h2⟩ := List.mem_filter.mp hb
    exact ⟨h1, of_decide_eq_true h2⟩
  · exact List.forall₂_same.mpr (fun d _ => ⟨rfl, fun _ => rfl⟩)

theorem gapRepair_frame_effect_witness :
    List.Forall₂ (fun d s => s = { d with total := s.total } ∧ (d.total ≠ 0 → s = d))
      specMedianTable (updateTotal (2018, 103) 150 specMedianTable) :=
  gapRepair_frame_effect specMedianTable (updateTotal (2018, 103) 150 specMedianTable)
    (by decide) rfl

lemma rollingGo_length (w : Nat) : ∀ (xs seen : List Int),
    (rollingGo w seen xs).length = xs.length := by
  intro xs
  induction xs with
  | nil => intro seen; rfl
  | cons x xs ih =>
    intro seen
    rw [rollingGo]
    simp [ih]

lemma rollingGo_getD (w : Nat) : ∀ (xs seen : List Int) (i : Nat), i < xs.length →
    (rollingGo w seen xs).getD i none =
      if seen.length + i + 1 < w then none
      else some (((seen ++ xs.take (i + 1)).drop (seen.length + i + 1 - w)).sum) := by
  intro xs
  induction xs with
  | nil =>
    intro seen i h
    simp at h
  | cons x xs ih =>
    intro seen i hi
    cases i with
    | zero =>
      rw [rollingGo]
      rw [List.getD_cons_zero]
      simp [List.length_append, List.take_succ_cons]
    | succ i =>
      rw [rollingGo]
      rw [List.getD_cons_succ]
      rw [ih (seen ++ [x]) i (by simpa using hi)]
      have hlen : (seen ++ [x]).length = seen.length + 1 := by simp
      have hlist : (seen ++ [x]) ++ xs.take (i + 1) = seen ++ (x :: xs).take (i + 1 + 1) := by
        rw [List.take_succ_cons, List.append_assoc]
        rfl
      rw [hlen, hlist]
      have harith1 : seen.length + 1 + i + 1 = seen.length + (i + 1) + 1 := by omega
      rw [harith1]

lemma rollingSums_getD (w : Nat) (xs : List Int) (i : Nat) (hi : i < xs.length) :
    (rollingSums w xs).getD i none =
      if i + 1 < w then none
      else some (((xs.take (i + 1)).drop (i + 1 - w)).sum) := by
  rw [rollingSums, rollingGo_getD w xs [] i hi]
  simp

/-- C6. In `_make_rolling_yearly`, a row with fewer than 365 rows up to
and including it carries no rolling value (`NaN`), and the row at 0-based
position `n ≥ 364` carries the sum of `total` over the 365 rows at
positions `n-364 .. n`; the daily table it runs over is already sorted by
`(year, dayofyear)` because `groupby` sorts its keys. -/
theorem rollingYearly_window_boundary (daily : List DailyRow) (n : Nat)
    (hn : n < daily.length) :
    (n + 1 < 365 → (makeRollingYearly daily).getD n (none, mkDay 0 0 0 none) =
       (none, daily.getD n (mkDay 0 0 0 none))) ∧
    (365 ≤ n + 1 → (makeRollingYearly daily).getD n (none, mkDay 0 0 0 none) =
       (some ((((daily.map (fun r => r.total)).take (n + 1)).drop (n + 1 - 365)).sum),
        daily.getD n (mkDay 0 0 0 none))) := by
  have hx : (daily.map (fun r => r.total)).length = daily.length :=
    List.length_map _ _
  have h1 : n < (rollingSums 365 (daily.map (fun r => r.total))).length := by
    rw [rollingSums, rollingGo_length, hx]
    exact hn
  have h2 : n < (makeRollingYearly daily).length := by
    rw [makeRollingYearly, List.length_zip, rollingSums, rollingGo_length, hx]
    simpa using hn
  have hzip : (makeRollingYearly daily).getD n (none, mkDay 0 0 0 none) =
      ((rollingSums 365 (daily.map (fun r => r.total))).getD n none,
        daily.getD n (mkDay 0 0 0 none)) := by
    rw [List.getD_eq_getElem _ _ h2]
    rw [List.getD_eq_getElem _ _ h1, List.getD_eq_getElem _ _ hn]
    simp only [makeRollingYearly]
    rw [List.getElem_zip]
  constructor
  · intro h
    rw [hzip, rollingSums_getD 365 _ n (hx ▸ hn), if_pos h]
  · intro h
    rw [hzip, rollingSums_getD 365 _ n (hx ▸ hn), if_neg (by omega)]

/-- A 365-day table (all totals 1) exercising the first defined rolling
value. -/
def rollWitnessTable : List DailyRow :=
  (List.range 365).map (fun i => mkDay 2020 (i + 1) 1 (some 0))

set_option maxRecDepth 40000 in
theorem rollingYearly_window_boundary_witness :
    (makeRollingYearly rollWitnessTable).getD 364 (none, mkDay 0 0 0 none) =
      (some 365, mkDay 2020 365 1 (some 0)) := by
  have h := (rollingYearly_window_boundary rollWitnessTable 364 (by decide)).2 (by decide)
  rw [h]
  decide

lemma filter_flatMap_nil {κ β : Type} [DecidableEq κ] (keys : List κ) (f : κ → List β)
    (keyOf : β → κ) (hf : ∀ k ∈ keys, ∀ b ∈ f k, keyOf b = k) (k0 : κ)
    (hk : k0 ∉ keys) :
    (keys.flatMap f).filter (fun b => decide (keyOf b = k0)) = [] := by
  rw [List.filter_eq_nil_iff]
  intro b hb hdec
  obtain ⟨k, hkmem, hbk⟩ := List.mem_flatMap.mp hb
  have hkey := hf k hkmem b hbk
  have hk0 : keyOf b = k0 := of_decide_eq_true hdec
  rw [hkey] at hk0
  exact hk (hk0 ▸ hkmem)


lemma filter_flatMap_keyed {κ β : Type} [DecidableEq κ] (f : κ → List β)
    (keyOf : β → κ) (k0 : κ) :
    ∀ (keys : List κ), (∀ k ∈ keys, ∀ b ∈ f k, keyOf b = k) → keys.Nodup →
      k0 ∈ keys →
      (keys.flatMap f).filter (fun b => decide (keyOf b = k0)) = f k0 := by
  intro keys
  induction keys with
  | nil => intro _ _ hk; cases hk
  | cons k ks ih =>
    intro hf hnd hk
    rw [List.flatMap_cons, List.filter_append]
    rcases List.mem_cons.mp hk with heq | hk0
    · subst heq
      have h1 : (f k0).filter (fun b => decide (keyOf b = k0)) = f k0 := by
        rw [List.filter_eq_self]
        intro b hb
        simp [hf k0 (List.mem_cons_self _ _) b hb]
      have h2 : (ks.flatMap f).filter (fun b => decide (keyOf b = k0)) = [] :=
        filter_flatMap_nil ks f keyOf
          (fun k2 hk2 => hf k2 (List.mem_cons_of_mem _ hk2)) k0
          (List.nodup_cons.mp hnd).1
      rw [h1, h2, List.append_nil]
    · have hne : k ≠ k0 := fun h => (List.nodup_cons.mp hnd).1 (h ▸ hk0)
      have h1 : (f k).filter (fun b => decide (keyOf b = k0)) = [] := by
        rw [List.filter_eq_nil_iff]
        intro b hb hdec
        have hkb := hf k (List.mem_cons_self _ _) b hb
        exact hne (by rw [← hkb]; exact of_decide_eq_true hdec)
      rw [h1, List.nil_append]
      exact ih (fun k2 hk2 => hf k2 (List.mem_cons_of_mem _ hk2))
        (List.nodup_cons.mp hnd).2 hk0

lemma map_eq_flatMap_singleton {κ β : Type} (g : κ → β) (l : List κ) :
    l.map g = l.flatMap (fun a => [g a]) := by
  induction l with
  | nil => rfl
  | cons a l ih =>
    rw [List.map_cons, List.flatMap_cons, ih]
    rfl

lemma mem_weekdayKeys (daily : List DailyRow) (w y : Nat) :
    (w, y) ∈ weekdayKeys daily ↔ ∃ r ∈ daily, r.weekday = some w ∧ r.year = y := by
  rw [weekdayKeys, mem_sortLe, mem_dropDuplicates, List.mem_filterMap]
  constructor
  · rintro ⟨r, hr, hopt⟩
    rcases hwd : r.weekday with _ | w2
    · rw [hwd] at hopt
      cases hopt
    · rw [hwd] at hopt
      simp only [Option.map_some'] at hopt
      cases hopt
      exact ⟨r, hr, hwd, rfl⟩
  · rintro ⟨r, hr, hwd, hy⟩
    refine ⟨r, hr, ?_⟩
    rw [hwd, hy]
    rfl

/-- The rollup row of one `(weekday, year)` group (the body of the map
inside `groupByWeekday`). -/
def mkWeekdayRow (daily : List DailyRow) (k : Nat × Nat) : WeekdayRow :=
  { weekday := k.1, year := k.2,
    total_crossings_mean := ((weekdayGroup daily k).map (fun r => (r.total : ℚ))).sum /
      ((((weekdayGroup daily k).map (fun r => (r.total : ℚ))).length : ℚ)),
    day_name := dayNameOf k.1,
    total_crossings_std_sq := sampleVar ((weekdayGroup daily k).map (fun r => (r.total : ℚ))) }

lemma groupByWeekday_eq_map (daily : List DailyRow) :
    groupByWeekday daily = (weekdayKeys daily).map (mkWeekdayRow daily) := rfl

/-- C7. `_group_by_weekday` produces, for every `(weekday, year)` group
of the repaired daily table, exactly one rollup row holding the
arithmetic mean of `total` and the sample standard deviation of `total`
(modelled by its square, the `ddof = 1` sample variance); for a one-day
group the standard deviation is `NaN` (`none`), not an error and not
zero. -/
theorem weekdayRollup_mean_and_sample_std (daily : List DailyRow) (w y : Nat)
    (hex : ∃ r ∈ daily, r.weekday = some w ∧ r.year = y) :
    ∃ g, (groupByWeekday daily).filter
        (fun x => decide ((x.weekday, x.year) = (w, y))) = [g] ∧
      g.weekday = w ∧ g.year = y ∧
      g.total_crossings_mean =
        ((weekdayGroup daily (w, y)).map (fun r => (r.total : ℚ))).sum /
          ((weekdayGroup daily (w, y)).length : ℚ) ∧
      ((weekdayGroup daily (w, y)).length = 1 → g.total_crossings_std_sq = none) ∧
      (2 ≤ (weekdayGroup daily (w, y)).length →
        g.total_crossings_std_sq = some
          (((weekdayGroup daily (w, y)).map (fun r => ((r.total : ℚ) -
              ((weekdayGroup daily (w, y)).map (fun r2 => (r2.total : ℚ))).sum /
                ((weekdayGroup daily (w, y)).length : ℚ)) ^ 2)).sum /
            (((weekdayGroup daily (w, y)).length : ℚ) - 1))) ∧
      g.day_name = dayNameOf w := by
  have hkmem : (w, y) ∈ weekdayKeys daily := (mem_weekdayKeys daily w y).mpr hex
  have hknd : (weekdayKeys daily).Nodup := by
    rw [weekdayKeys, nodup_sortLe]
    exact nodup_dropDuplicates _
  have hfilter : (groupByWeekday daily).filter
      (fun x => decide ((x.weekday, x.year) = (w, y))) = [mkWeekdayRow daily (w, y)] := by
    rw [groupByWeekday_eq_map, map_eq_flatMap_singleton]
    refine filter_flatMap_keyed (fun k => [mkWeekdayRow daily k])
      (fun x => (x.weekday, x.year)) (w, y) (weekdayKeys daily) ?_ hknd hkmem
    intro k _ b hb
    rw [List.mem_singleton] at hb
    subst hb
    rfl
  refine ⟨mkWeekdayRow daily (w, y), hfilter, rfl, rfl, ?_, ?_, ?_, rfl⟩
  · simp [mkWeekdayRow, List.length_map]
  · intro hlen
    simp only [mkWeekdayRow, sampleVar, List.length_map, hlen]
    rfl
  · intro hlen
    simp only [mkWeekdayRow, sampleVar, List.length_map]
    rw [if_neg (by omega)]
    simp only [List.map_map, Function.comp_def]

/-- A table with two Mondays and a single Tuesday in 2018. -/
def wkWitnessTable : List DailyRow :=
  [mkDay 2018 1 10 (some 0), mkDay 2018 8 20 (some 0), mkDay 2018 2 7 (some 1)]

theorem weekdayRollup_mean_and_sample_std_witness :
    ∃ g ∈ groupByWeekday wkWitnessTable,
      g.weekday = 1 ∧ g.year = 2018 ∧ g.total_crossings_std_sq = none := by
  obtain ⟨g, hg, hwd, hy, _, hstd1, _, _⟩ :=
    weekdayRollup_mean_and_sample_std wkWitnessTable 1 2018
      ⟨mkDay 2018 2 7 (some 1), by decide⟩
  have hmem : g ∈ (groupByWeekday wkWitnessTable).filter
      (fun x => decide ((x.weekday, x.year) = (1, 2018))) := by
    rw [hg]
    exact List.mem_cons_self _ _
  exact ⟨g, (List.mem_filter.mp hmem).1, hwd, hy, hstd1 (by decide)⟩

/-- A raw record the Normalizer must reject: an unparseable timestamp, or
a non-numeric string in a count field. -/
def RawRecord.isMalformed (r : RawRecord) : Prop :=
  (∃ t, r.date = .unparseable t) ∨ (∃ t, r.total = .text t) ∨
    (∃ v ∈ r.others, ∃ t, v = .text t)

lemma mapM_error_of_mem {α β : Type} (f : α → Except PipeError β) :
    ∀ (l : List α) (x : α) (e : PipeError), x ∈ l → f x = .error e →
      ∃ e2, l.mapM f = .error e2 := by
  intro l
  induction l with
  | nil =>
    intro x e hx _
    cases hx
  | cons a l ih =>
    intro x e hx hfe
    rw [List.mapM_cons]
    cases hfa : f a with
    | error e0 => exact ⟨e0, rfl⟩
    | ok b =>
      rcases List.mem_cons.mp hx with heq | hx2
      · rw [heq] at hfe
        rw [hfe] at hfa
        cases hfa
      · obtain ⟨e2, hl⟩ := ih x e hx2 hfe
        refine ⟨e2, ?_⟩
        rw [except_bind_ok, hl]
        rfl

lemma mapM_error_mem {α β : Type} (f : α → Except PipeError β) :
    ∀ (l : List α) (e : PipeError), l.mapM f = .error e → ∃ x ∈ l, f x = .error e := by
  intro l
  induction l with
  | nil =>
    intro e h
    have h2 : Except.ok (ε := PipeError) ([] : List β) = .error e := h
    cases h2
  | cons a l ih =>
    intro e h
    rw [List.mapM_cons] at h
    cases hfa : f a with
    | error e0 =>
      rw [hfa, except_bind_error] at h
      injection h with h2
      exact ⟨a, List.mem_cons_self _ _, by rw [hfa, h2]⟩
    | ok b =>
      rw [hfa, except_bind_ok] at h
      cases hl : l.mapM f with
      | error e2 =>
        rw [hl, except_bind_error] at h
        injection h with h2
        obtain ⟨x, hx, hfx⟩ := ih e2 hl
        exact ⟨x, List.mem_cons_of_mem _ hx, by rw [hfx, h2]⟩
      | ok bs =>
        rw [hl, except_bind_ok] at h
        cases h

lemma mapM_ok_of_forall {α β : Type} (f : α → Except PipeError β) :
    ∀ (l : List α), (∀ x ∈ l, ∃ y, f x = .ok y) → ∃ ys, l.mapM f = .ok ys := by
  intro l
  induction l with
  | nil =>
    intro _
    exact ⟨[], rfl⟩
  | cons a l ih =>
    intro hall
    obtain ⟨y, hy⟩ := hall a (List.mem_cons_self _ _)
    obtain ⟨ys, hys⟩ := ih (fun x hx => hall x (List.mem_cons_of_mem _ hx))
    refine ⟨y :: ys, ?_⟩
    rw [List.mapM_cons, hy, except_bind_ok, hys, except_bind_ok]
    rfl

lemma mapM_ok_mem {α β : Type} (f : α → Except PipeError β) :
    ∀ (l : List α) (ys : List β), l.mapM f = .ok ys → ∀ x ∈ l, ∃ y ∈ ys, f x = .ok y := by
  intro l
  induction l with
  | nil =>
    intro ys _ x hx
    cases hx
  | cons a l ih =>
    intro ys h x hx
    rw [List.mapM_cons] at h
    cases hfa : f a with
    | error e0 =>
      rw [hfa, except_bind_error] at h
      cases h
    | ok b =>
      rw [hfa, except_bind_ok] at h
      cases hl : l.mapM f with
      | error e1 =>
        rw [hl, except_bind_error] at h
        cases h
      | ok bs =>
        rw [hl, except_bind_ok] at h
        have h2 : Except.ok (ε := PipeError) (b :: bs) = .ok ys := h
        injection h2 with h3
        subst h3
        rcases List.mem_cons.mp hx with heq | hx2
        · exact ⟨b, List.mem_cons_self _ _, heq ▸ hfa⟩
        · obtain ⟨y, hy, hfy⟩ := ih bs hl x hx2
          exact ⟨y, List.mem_cons_of_mem _ hy, hfy⟩

lemma parseRecordDate_ok (r : RawRecord) (s : Stamp) (h : r.date = .parseable s) :
    parseRecordDate r = .ok ⟨s, r.total, r.others⟩ := by
  unfold parseRecordDate
  rw [h]

lemma parseRecordDate_error_shape (r : RawRecord) (e : PipeError)
    (h : parseRecordDate r = .error e) : ∃ t, e = .malformedTimestamp t := by
  cases hd : r.date with
  | parseable s =>
    rw [parseRecordDate_ok r s hd] at h
    cases h
  | unparseable t =>
    unfold parseRecordDate at h
    rw [hd] at h
    injection h with h2
    exact ⟨t, h2.symm⟩

lemma castValue_error_shape (v : RawValue) (e : PipeError)
    (h : castValue v = .error e) : ∃ t, e = .nonNumericValue t := by
  cases v with
  | num n =>
    have h2 : Except.ok (ε := PipeError) n = .error e := h
    cases h2
  | missing =>
    have h2 : Except.error (α := Int) (PipeError.nonNumericValue "NaN") = .error e := h
    injection h2 with h3
    exact ⟨"NaN", h3.symm⟩
  | text t =>
    have h2 : Except.error (α := Int) (PipeError.nonNumericValue t) = .error e := h
    injection h2 with h3
    exact ⟨t, h3.symm⟩

lemma castRecord_error_shape (r : DatedRecord) (e : PipeError)
    (h : castRecord r = .error e) : ∃ t, e = .nonNumericValue t := by
  simp only [castRecord] at h
  cases hcv : castValue r.total with
  | error e0 =>
    rw [hcv, except_bind_error] at h
    injection h with h2
    exact h2 ▸ castValue_error_shape r.total e0 hcv
  | ok t0 =>
    rw [hcv, except_bind_ok] at h
    cases hos : r.others.mapM castValue with
    | error e1 =>
      rw [hos, except_bind_error] at h
      injection h with h2
      obtain ⟨v, hv, hverr⟩ := mapM_error_mem castValue r.others e1 hos
      exact h2 ▸ castValue_error_shape v e1 hverr
    | ok os =>
      rw [hos, except_bind_ok] at h
      have h2 : Except.ok (ε := PipeError) (⟨r.date, t0, os⟩ : CastRecord) = .error e := h
      cases h2

lemma castRecord_error_exists (r : DatedRecord)
    (h : (∃ t, r.total = .text t) ∨ (∃ v ∈ r.others, ∃ t, v = .text t)) :
    ∃ e, castRecord r = .error e := by
  cases hcv : castValue r.total with
  | error e0 =>
    refine ⟨e0, ?_⟩
    simp only [castRecord]
    rw [hcv, except_bind_error]
  | ok t0 =>
    rcases h with ⟨t, ht⟩ | ⟨v, hv, t, ht⟩
    · rw [ht] at hcv
      have h2 : Except.error (α := Int) (PipeError.nonNumericValue t) = .ok t0 := hcv
      cases h2
    · have hverr : castValue v = .error (.nonNumericValue t) := by
        rw [ht]
        rfl
      obtain ⟨e2, hmap⟩ := mapM_error_of_mem castValue r.others v _ hv hverr
      refine ⟨e2, ?_⟩
      simp only [castRecord]
      rw [hcv, except_bind_ok, hmap, except_bind_error]

/-- C8. `_data_from_server` fails — with the pandas `ValueError` the spec
calls `MalformedInputError` — whenever any raw record has an unparseable
timestamp (`pd.to_datetime`) or a non-numeric string in a count field
(`astype(int)`); the failure aborts the whole transform for the location
and no hourly (hence no daily) output is produced. -/
theorem normalizer_fails_on_malformed_records (records : List RawRecord)
    (h : ∃ r ∈ records, r.isMalformed) :
    ∃ e, dataFromServer records = .error e ∧ e.isMalformedInput := by
  by_cases hdate : ∃ r ∈ records, ∃ t, r.date = RawDate.unparseable t
  · obtain ⟨r, hr, t, ht⟩ := hdate
    have hfr : (fillRecord r).date = RawDate.unparseable t := ht
    have hperr : parseRecordDate (fillRecord r) = .error (.malformedTimestamp t) := by
      unfold parseRecordDate
      rw [hfr]
    obtain ⟨e2, hmap⟩ := mapM_error_of_mem parseRecordDate (records.map fillRecord)
      (fillRecord r) _ (List.mem_map_of_mem _ hr) hperr
    obtain ⟨x, _, hx⟩ := mapM_error_mem parseRecordDate _ e2 hmap
    obtain ⟨t2, ht2⟩ := parseRecordDate_error_shape x e2 hx
    refine ⟨e2, ?_, ?_⟩
    · simp only [dataFromServer]
      rw [hmap, except_bind_error]
    · rw [ht2]
      exact trivial
  · push_neg at hdate
    have hallok : ∀ x ∈ records.map fillRecord, ∃ d, parseRecordDate x = .ok d := by
      intro x hx
      obtain ⟨r, hr, rfl⟩ := List.mem_map.mp hx
      cases hd : r.date with
      | parseable s => exact ⟨_, parseRecordDate_ok (fillRecord r) s hd⟩
      | unparseable t => exact absurd hd (hdate r hr t)
    obtain ⟨ds, hds⟩ := mapM_ok_of_forall parseRecordDate _ hallok
    obtain ⟨r, hr, hmal⟩ := h
    have hcnt : (∃ t, (fillRecord r).total = RawValue.text t) ∨
        (∃ v ∈ (fillRecord r).others, ∃ t, v = RawValue.text t) := by
      rcases hmal with ⟨t, ht⟩ | ⟨t, ht⟩ | ⟨v, hv, t, ht⟩
      · exact absurd ht (hdate r hr t)
      · left
        refine ⟨t, ?_⟩
        show fillValue r.total = RawValue.text t
        rw [ht]
        rfl
      · right
        have hft : fillValue v = RawValue.text t := by
          rw [ht]
          rfl
        exact ⟨RawValue.text t, hft ▸ List.mem_map_of_mem fillValue hv, t, rfl⟩
    obtain ⟨d, hd, hpd⟩ := mapM_ok_mem parseRecordDate _ ds hds (fillRecord r)
      (List.mem_map_of_mem _ hr)
    have hdcomp : d.total = (fillRecord r).total ∧ d.others = (fillRecord r).others := by
      cases hdd : (fillRecord r).date with
      | parseable s =>
        rw [parseRecordDate_ok _ s hdd] at hpd
        injection hpd with h2
        rw [← h2]
        exact ⟨rfl, rfl⟩
      | unparseable t => exact absurd hdd (hdate r hr t)
    have hexerr : ∃ e0, castRecord d = .error e0 := by
      apply castRecord_error_exists
      rcases hcnt with ⟨t, ht⟩ | ⟨v, hv, t, ht⟩
      · left
        exact ⟨t, by rw [hdcomp.1, ht]⟩
      · right
        refine ⟨v, ?_, t, ht⟩
        rw [hdcomp.2]
        exact hv
    obtain ⟨e0, hc⟩ := hexerr
    obtain ⟨e1, hcm⟩ := mapM_error_of_mem castRecord ds d e0 hd hc
    obtain ⟨x2, _, hx2⟩ := mapM_error_mem castRecord ds e1 hcm
    obtain ⟨t3, ht3⟩ := castRecord_error_shape x2 e1 hx2
    refine ⟨e1, ?_, ?_⟩
    · simp only [dataFromServer]
      rw [hds, except_bind_ok, hcm, except_bind_error]
    · rw [ht3]
      exact trivial

theorem normalizer_fails_on_malformed_records_witness :
    ∃ e, dataFromServer [⟨RawDate.unparseable "bad", RawValue.num 5, []⟩] = .error e ∧
      e.isMalformedInput :=
  normalizer_fails_on_malformed_records [⟨RawDate.unparseable "bad", RawValue.num 5, []⟩]
    ⟨⟨RawDate.unparseable "bad", RawValue.num 5, []⟩, List.mem_singleton.mpr rfl,
      Or.inl ⟨"bad", rfl⟩⟩

lemma mergeMeta_key (hourly : List HourlyRow) (k : Nat × Nat) (tot : Int)
    (oth : List Int) :
    ∀ b ∈ mergeMeta hourly k tot oth, (b.year, b.dayofyear) = k := by
  intro b hb
  unfold mergeMeta at hb
  split at hb
  · rw [List.mem_singleton] at hb
    subst hb
    rfl
  · obtain ⟨h0, _, heq⟩ := List.mem_map.mp hb
    subst heq
    rfl

lemma mem_dailyKeys (hourly : List HourlyRow) (y doy : Nat) :
    (y, doy) ∈ dailyKeys hourly ↔ ∃ h2 ∈ hourly, h2.year = y ∧ h2.dayofyear = doy := by
  rw [dailyKeys, mem_sortLe, mem_dropDuplicates, List.mem_map]
  constructor
  · rintro ⟨h2, hh, heq⟩
    refine ⟨h2, hh, ?_, ?_⟩
    · exact congrArg Prod.fst heq
    · exact congrArg Prod.snd heq
  · rintro ⟨h2, hh, hy, hd⟩
    exact ⟨h2, hh, by rw [hy, hd]⟩

lemma filter_keyfun_length_le_one {α κ : Type} [DecidableEq κ] (f : α → κ) (v : κ) :
    ∀ (l : List α), (l.map f).Nodup →
      (l.filter (fun x => decide (f x = v))).length ≤ 1 := by
  intro l
  induction l with
  | nil =>
    intro _
    simp
  | cons a l ih =>
    intro hnd
    rw [List.map_cons, List.nodup_cons] at hnd
    rw [List.filter_cons]
    by_cases ha : f a = v
    · rw [if_pos (by simp [ha])]
      have hnil : l.filter (fun x => decide (f x = v)) = [] := by
        rw [List.filter_eq_nil_iff]
        intro x hx hdec
        have hfx : f x = v := of_decide_eq_true hdec
        exact hnd.1 (List.mem_map.mpr ⟨x, hx, by rw [hfx, ha]⟩)
      rw [hnil]
      exact Nat.le_refl 1
    · rw [if_neg (by simp [ha])]
      exact ih hnd.2

/-- An hourly table whose only reading for 2018-01-03 is at hour 5: the
metadata merge (which joins on `hour = 0`) finds no match. -/
def hourFiveRow : HourlyRow := deriveCalendar ⟨⟨2018, 1, 3, 5⟩, 42, [7]⟩

/-- C5 (counterexample). On a day present in the hourly data but with no
hour-0 reading, the produced daily row's calendar metadata is `NaN`
(`none`) — it does not equal the metadata of any hourly row of that day,
contradicting the claim as stated. -/
theorem dailyAggregator_hour0_metadata_counterexample :
    ¬ (∀ r ∈ getDailyTotalsRaw [hourFiveRow], ∃ h2 ∈ [hourFiveRow],
        h2.year = r.year ∧ h2.dayofyear = r.dayofyear ∧
        r.weekday = some h2.weekday ∧ r.day_name = some h2.day_name ∧
        r.day = some h2.day ∧ r.date = some h2.date ∧ r.month = some h2.month ∧
        r.dayofyear_float = some h2.dayofyear_float) := by decide

/-- C5 (amended). For every `(year, day_of_year)` pair present in an
hourly table with unique `(year, dayofyear, hour)` keys,
`_get_daily_totals` (before repair) produces exactly one daily row; its
`total` and every other count field are the sums of that day's hourly
counts; its calendar metadata equals that of the day's hour-0 hourly row
when one exists and is `NaN` (`none`) otherwise; and no daily rows exist
for days absent from the hourly data. -/
theorem dailyAggregator_one_row_sum_and_hour0_metadata (hourly : List HourlyRow)
    (hnd : (hourly.map (fun h2 => (h2.year, h2.dayofyear, h2.hour))).Nodup)
    (y doy : Nat) (hpresent : ∃ h2 ∈ hourly, h2.year = y ∧ h2.dayofyear = doy) :
    (∀ r ∈ getDailyTotalsRaw hourly, ∃ h2 ∈ hourly,
      h2.year = r.year ∧ h2.dayofyear = r.dayofyear) ∧
    ∃ r, (getDailyTotalsRaw hourly).filter
        (fun s => decide ((s.year, s.dayofyear) = (y, doy))) = [r] ∧
      r.total = ((groupRows hourly (y, doy)).map (fun h2 => h2.total)).sum ∧
      r.others = vecSum ((groupRows hourly (y, doy)).map (fun h2 => h2.others)) ∧
      (∀ h0 ∈ hourly, h0.year = y → h0.dayofyear = doy → h0.hour = 0 →
        r.weekday = some h0.weekday ∧ r.day_name = some h0.day_name ∧
        r.day = some h0.day ∧ r.date = some h0.date ∧ r.month = some h0.month ∧
        r.dayofyear_float = some h0.dayofyear_float) ∧
      ((∀ h0 ∈ hourly, ¬(h0.year = y ∧ h0.dayofyear = doy ∧ h0.hour = 0)) →
        r.weekday = none ∧ r.day_name = none ∧ r.day = none ∧ r.date = none ∧
        r.month = none ∧ r.dayofyear_float = none) := by
  constructor
  · intro r hr
    rw [getDailyTotalsRaw] at hr
    obtain ⟨k, hk, hrk⟩ := List.mem_flatMap.mp hr
    have hkey := mergeMeta_key hourly k _ _ r hrk
    obtain ⟨h2, hh2, hy2, hd2⟩ := (mem_dailyKeys hourly k.1 k.2).mp (by
      have : (k.1, k.2) = k := rfl
      rw [this]
      exact hk)
    refine ⟨h2, hh2, ?_, ?_⟩
    · rw [hy2, ← hkey]
    · rw [hd2, ← hkey]
  · have hkmem : (y, doy) ∈ dailyKeys hourly := (mem_dailyKeys hourly y doy).mpr hpresent
    have hknd : (dailyKeys hourly).Nodup := by
      rw [dailyKeys, nodup_sortLe]
      exact nodup_dropDuplicates _
    have hfilter : (getDailyTotalsRaw hourly).filter
        (fun s => decide ((s.year, s.dayofyear) = (y, doy))) =
        mergeMeta hourly (y, doy)
          (((groupRows hourly (y, doy)).map (fun h2 => h2.total)).sum)
          (vecSum ((groupRows hourly (y, doy)).map (fun h2 => h2.others))) := by
      rw [getDailyTotalsRaw]
      exact filter_flatMap_keyed
        (fun k => mergeMeta hourly k (((groupRows hourly k).map (fun h2 => h2.total)).sum)
          (vecSum ((groupRows hourly k).map (fun h2 => h2.others))))
        (fun b => (b.year, b.dayofyear)) (y, doy) (dailyKeys hourly)
        (fun k hk b hb => mergeMeta_key hourly k _ _ b hb) hknd hkmem
    have hlen : (hourZeroRows hourly (y, doy)).length ≤ 1 := by
      have hgen := filter_keyfun_length_le_one
        (fun h2 : HourlyRow => (h2.year, h2.dayofyear, h2.hour)) (y, doy, 0) hourly hnd
      exact hgen
    rcases hms : hourZeroRows hourly (y, doy) with _ | ⟨m, ms⟩
    · -- no hour-0 row: single NaN-metadata daily row
      have hmm : mergeMeta hourly (y, doy)
          (((groupRows hourly (y, doy)).map (fun h2 => h2.total)).sum)
          (vecSum ((groupRows hourly (y, doy)).map (fun h2 => h2.others))) =
          [{ year := y, dayofyear := doy,
             total := ((groupRows hourly (y, doy)).map (fun h2 => h2.total)).sum,
             others := vecSum ((groupRows hourly (y, doy)).map (fun h2 => h2.others)),
             weekday := none, day_name := none, day := none, date := none,
             month := none, dayofyear_float := none }] := by
        unfold mergeMeta
        rw [hms]
      refine ⟨_, by rw [hfilter, hmm], rfl, rfl, ?_, ?_⟩
      · intro h0 hh0 hy0 hd0 hr0
        exfalso
        have : h0 ∈ hourZeroRows hourly (y, doy) := by
          rw [hourZeroRows, List.mem_filter]
          refine ⟨hh0, ?_⟩
          simp [hy0, hd0, hr0]
        rw [hms] at this
        cases this
      · intro _
        exact ⟨rfl, rfl, rfl, rfl, rfl, rfl⟩
    · rcases ms with _ | ⟨m2, ms2⟩
      · -- exactly one hour-0 row m
        have hmm : mergeMeta hourly (y, doy)
            (((groupRows hourly (y, doy)).map (fun h2 => h2.total)).sum)
            (vecSum ((groupRows hourly (y, doy)).map (fun h2 => h2.others))) =
            [{ year := y, dayofyear := doy,
               total := ((groupRows hourly (y, doy)).map (fun h2 => h2.total)).sum,
               others := vecSum ((groupRows hourly (y, doy)).map (fun h2 => h2.others)),
               weekday := some m.weekday, day_name := some m.day_name,
               day := some m.day, date := some m.date, month := some m.month,
               dayofyear_float := some m.dayofyear_float }] := by
          unfold mergeMeta
          rw [hms]
          rfl
        refine ⟨_, by rw [hfilter, hmm], rfl, rfl, ?_, ?_⟩
        · intro h0 hh0 hy0 hd0 hr0
          have hmem0 : h0 ∈ hourZeroRows hourly (y, doy) := by
            rw [hourZeroRows, List.mem_filter]
            refine ⟨hh0, ?_⟩
            simp [hy0, hd0, hr0]
          rw [hms, List.mem_singleton] at hmem0
          subst hmem0
          exact ⟨rfl, rfl, rfl, rfl, rfl, rfl⟩
        · intro hnone
          exfalso
          have hm : m ∈ hourZeroRows hourly (y, doy) := by
            rw [hms]
            exact List.mem_cons_self _ _
          rw [hourZeroRows, List.mem_filter] at hm
          have hprops := of_decide_eq_true hm.2
          exact hnone m hm.1 ⟨congrArg (fun p => p.1) hprops,
            congrArg (fun p => p.2.1) hprops, congrArg (fun p => p.2.2) hprops⟩
      · exfalso
        rw [hms] at hlen
        simp at hlen

/-- The hour-0 companion reading of the same day. -/
def hourZeroRow : HourlyRow := deriveCalendar ⟨⟨2018, 1, 3, 0⟩, 1, [2]⟩

theorem dailyAggregator_one_row_sum_and_hour0_metadata_witness :
    ∃ r, (getDailyTotalsRaw [hourZeroRow, hourFiveRow]).filter
        (fun s => decide ((s.year, s.dayofyear) = (2018, 3))) = [r] ∧
      r.total = 43 ∧ r.weekday = some 2 := by
  obtain ⟨_, r, hfil, htot, _, hmeta, _⟩ :=
    dailyAggregator_one_row_sum_and_hour0_metadata [hourZeroRow, hourFiveRow]
      (by decide) 2018 3 ⟨hourZeroRow, List.mem_cons_self _ _, rfl, by decide⟩
  refine ⟨r, hfil, ?_, ?_⟩
  · rw [htot]
    decide
  · have hw := (hmeta hourZeroRow (List.mem_cons_self _ _) rfl (by decide) rfl).1
    rw [hw]
    decide
